import Mathlib

/-!
Verification of the chip8-emu-rust runtime core against its design
specification.  The Rust sources are shallowly embedded: bytes and
machine integers become `Nat` (with explicit masking / `%` where the
code masks or wraps), arrays become index functions, fallible slice
indexing becomes `Option`, and `Result` becomes `Except`.
-/

namespace Chip8Emu

/-! ### System font (src/crates/sys-font/src/lib.rs)

The `Font` enum has 16 characters `Char0`..`CharF` with `#[repr(u8)]`
discriminants 0..15. -/

inductive Font where
  | Char0 | Char1 | Char2 | Char3 | Char4 | Char5 | Char6 | Char7
  | Char8 | Char9 | CharA | CharB | CharC | CharD | CharE | CharF
  deriving DecidableEq, Repr, Fintype

namespace Font

/-- The `#[repr(u8)]` discriminant of each `Font` character (the Rust
`*self as u8` cast). -/
def discriminant : Font → Nat
  | Char0 => 0 | Char1 => 1 | Char2 => 2 | Char3 => 3
  | Char4 => 4 | Char5 => 5 | Char6 => 6 | Char7 => 7
  | Char8 => 8 | Char9 => 9 | CharA => 10 | CharB => 11
  | CharC => 12 | CharD => 13 | CharE => 14 | CharF => 15

/-- `Font::PREFERRED_TABLE_STARTING_ADDRESS: u16 = 0x050`. -/
def PREFERRED_TABLE_STARTING_ADDRESS : Nat := 0x050

/-- `Font::as_bytes`: the 5-byte sprite of each character. -/
def as_bytes : Font → List Nat
  | Char0 => [0xF0, 0x90, 0x90, 0x90, 0xF0]
  | Char1 => [0x20, 0x60, 0x20, 0x20, 0x70]
  | Char2 => [0xF0, 0x10, 0xF0, 0x80, 0xF0]
  | Char3 => [0xF0, 0x10, 0xF0, 0x10, 0xF0]
  | Char4 => [0x90, 0x90, 0xF0, 0x10, 0x10]
  | Char5 => [0xF0, 0x80, 0xF0, 0x10, 0xF0]
  | Char6 => [0xF0, 0x80, 0xF0, 0x90, 0xF0]
  | Char7 => [0xF0, 0x10, 0x20, 0x40, 0x40]
  | Char8 => [0xF0, 0x90, 0xF0, 0x90, 0xF0]
  | Char9 => [0xF0, 0x90, 0xF0, 0x10, 0xF0]
  | CharA => [0xF0, 0x90, 0xF0, 0x90, 0x90]
  | CharB => [0xE0, 0x90, 0xE0, 0x90, 0xE0]
  | CharC => [0xF0, 0x80, 0x80, 0x80, 0xF0]
  | CharD => [0xE0, 0x90, 0x90, 0x90, 0xE0]
  | CharE => [0xF0, 0x80, 0xF0, 0x80, 0xF0]
  | CharF => [0xF0, 0x80, 0xF0, 0x80, 0x80]

/-- `Font::get_table_as_bytes`: the full 80-byte font table literal. -/
def get_table_as_bytes : List Nat :=
  [ 0xF0, 0x90, 0x90, 0x90, 0xF0, -- 0
    0x20, 0x60, 0x20, 0x20, 0x70, -- 1
    0xF0, 0x10, 0xF0, 0x80, 0xF0, -- 2
    0xF0, 0x10, 0xF0, 0x10, 0xF0, -- 3
    0x90, 0x90, 0xF0, 0x10, 0x10, -- 4
    0xF0, 0x80, 0xF0, 0x10, 0xF0, -- 5
    0xF0, 0x80, 0xF0, 0x90, 0xF0, -- 6
    0xF0, 0x10, 0x20, 0x40, 0x40, -- 7
    0xF0, 0x90, 0xF0, 0x90, 0xF0, -- 8
    0xF0, 0x90, 0xF0, 0x10, 0xF0, -- 9
    0xF0, 0x90, 0xF0, 0x90, 0x90, -- A
    0xE0, 0x90, 0xE0, 0x90, 0xE0, -- B
    0xF0, 0x80, 0x80, 0x80, 0xF0, -- C
    0xE0, 0x90, 0x90, 0x90, 0xE0, -- D
    0xF0, 0x80, 0xF0, 0x80, 0xF0, -- E
    0xF0, 0x80, 0xF0, 0x80, 0x80  -- F
  ]

/-- `Font::table_offset`: `((*self as u8) * 5) as usize`. -/
def table_offset (f : Font) : Nat := f.discriminant * 5

/-- All 16 characters in discriminant order (the order of the Rust enum). -/
def allChars : List Font :=
  [Char0, Char1, Char2, Char3, Char4, Char5, Char6, Char7,
   Char8, Char9, CharA, CharB, CharC, CharD, CharE, CharF]

end Font

/-! ### RAM (src/src/ram.rs) -/

/-- `RAM_SIZE: u16 = 4096`. -/
def RAM_SIZE : Nat := 4096

/-- `clean_addr`: `addr & 0b0000_1111_1111_1111`. -/
def clean_addr (addr : Nat) : Nat := addr &&& 0x0FFF

/-- `addr_to_usize`: `clean_addr(addr) as usize`. -/
def addr_to_usize (addr : Nat) : Nat := clean_addr addr

/-- Sequential byte writes: the Rust loop
`for (i, byte) in FONT_TABLE.iter().enumerate() { mem[base + i] = *byte }`
rendered as a fold writing `bs` at consecutive indices from `start`. -/
def writeBytes (mem : Nat → Nat) (start : Nat) : List Nat → (Nat → Nat)
  | [] => mem
  | b :: bs => writeBytes (fun i => if i = start then b else mem i) (start + 1) bs

/-- `Ram`: `mem: [u8; RAM_SIZE as usize]`, modelled as an index function
on `0..4096` (all accesses go through `addr_to_usize`, which maps into
that range). -/
structure Ram where
  mem : Nat → Nat

/-- `Ram::new`: zeroed memory with the font table written at
`addr_to_usize(Font::PREFERRED_TABLE_STARTING_ADDRESS) + i` for each
byte `i` of the table. -/
def Ram.new : Ram :=
  ⟨writeBytes (fun _ => 0) (addr_to_usize Font.PREFERRED_TABLE_STARTING_ADDRESS)
    Font.get_table_as_bytes⟩

/-- `Ram::get`: `&self.mem[addr_to_usize(addr)]`. -/
def Ram.get (r : Ram) (addr : Nat) : Nat := r.mem (addr_to_usize addr)

/-- `Ram::set`: `self.mem[addr_to_usize(addr)] = val`. -/
def Ram.set (r : Ram) (addr val : Nat) : Ram :=
  ⟨fun i => if i = addr_to_usize addr then val else r.mem i⟩

/-- One endpoint of a Rust `RangeBounds<u16>` argument
(`Bound::Included` / `Bound::Excluded` / `Bound::Unbounded`). -/
inductive AddrBound where
  | included (a : Nat)
  | excluded (a : Nat)
  | unbounded
  deriving DecidableEq, Repr

/-- A Rust `RangeBounds<u16>` value, as its pair of endpoint bounds. -/
structure AddrRangeBounds where
  start_bound : AddrBound
  end_bound : AddrBound
  deriving DecidableEq, Repr

/-- `normalize_addr_range`: turns any `RangeBounds<u16>` into a concrete
half-open pair `(start, end)` with the top 4 bits of each endpoint
truncated; excluded starts and included ends are shifted by one and
clamped. -/
def normalize_addr_range (r : AddrRangeBounds) : Nat × Nat :=
  let start := match r.start_bound with
    | .included a => clean_addr a
    | .excluded a => min (clean_addr a + 1) (RAM_SIZE - 1)
    | .unbounded => 0
  let stop := match r.end_bound with
    | .included a => min (clean_addr a + 1) RAM_SIZE
    | .excluded a => clean_addr a
    | .unbounded => RAM_SIZE
  (start, stop)

/-- `addr_range_to_usize_range`: the normalized pair, cast to `usize`. -/
def addr_range_to_usize_range (r : AddrRangeBounds) : Nat × Nat :=
  normalize_addr_range r

/-- Rust slice indexing `&mem[s..e]` over the 4096-byte array: panics
(here `none`) unless `s <= e` and `e <= 4096`; otherwise yields the
bytes at indices `s..e`. -/
def sliceMem (mem : Nat → Nat) (s e : Nat) : Option (List Nat) :=
  if s ≤ e ∧ e ≤ RAM_SIZE then
    some ((List.range (e - s)).map (fun k => mem (s + k)))
  else
    none

/-- `Ram::get_range`: `&self.mem[addr_range_to_usize_range(addr_range)]`. -/
def Ram.get_range (r : Ram) (addr_range : AddrRangeBounds) : Option (List Nat) :=
  sliceMem r.mem (addr_range_to_usize_range addr_range).1
    (addr_range_to_usize_range addr_range).2

/-- `Ram::get_range_mut`: same indexing as `get_range`, through a
mutable borrow. -/
def Ram.get_range_mut (r : Ram) (addr_range : AddrRangeBounds) : Option (List Nat) :=
  sliceMem r.mem (addr_range_to_usize_range addr_range).1
    (addr_range_to_usize_range addr_range).2

/-! ### Helper lemmas about masking and sequential writes -/

theorem clean_addr_eq_mod (a : Nat) : clean_addr a = a % 4096 := by
  simpa [clean_addr] using Nat.and_pow_two_sub_one_eq_mod a 12

theorem writeBytes_eq_of_outside (bs : List Nat) (mem : Nat → Nat) (start i : Nat)
    (h : i < start ∨ start + bs.length ≤ i) :
    writeBytes mem start bs i = mem i := by
  induction bs generalizing mem start with
  | nil => rfl
  | cons b bs ih =>
      have hne : i ≠ start := by
        rcases h with h | h
        · omega
        · simp only [List.length_cons] at h; omega
      rw [writeBytes, ih]
      · simp [hne]
      · rcases h with h | h
        · left; omega
        · right; simp only [List.length_cons] at h; omega

theorem writeBytes_get (bs : List Nat) (mem : Nat → Nat) (start j : Nat)
    (hj : j < bs.length) :
    writeBytes mem start bs (start + j) = bs.getD j 0 := by
  induction bs generalizing mem start j with
  | nil => simp at hj
  | cons b bs ih =>
      cases j with
      | zero =>
          rw [writeBytes, writeBytes_eq_of_outside]
          · simp
          · left; omega
      | succ j =>
          have harith : start + (j + 1) = (start + 1) + j := by omega
          rw [writeBytes, harith, ih]
          · simp
          · simp only [List.length_cons] at hj; omega

/-! ### Claims C1, C3, C10, C2 -/

/-- Claim C1: for every 16-bit address `a`, `clean_addr a = a % 4096`, and
`Ram::get` / `Ram::set` at `a` behave identically to `Ram::get` / `Ram::set`
at `a % 4096`: `get` returns the same byte, and `set` from the same starting
state yields the same memory state. -/
theorem ram_addr_mask_mod (a : Nat) (h : a < 65536) :
    clean_addr a = a % 4096 ∧
    (∀ r : Ram, r.get a = r.get (a % 4096)) ∧
    (∀ (r : Ram) (v : Nat), r.set a v = r.set (a % 4096) v) := by
  have hkey : addr_to_usize (a % 4096) = addr_to_usize a := by
    simp only [addr_to_usize, clean_addr_eq_mod]
    omega
  exact ⟨clean_addr_eq_mod a,
    fun r => by simp only [Ram.get, hkey],
    fun r v => by simp only [Ram.set, hkey]⟩

theorem ram_addr_mask_mod_witness :
    (5000 : Nat) < 65536 ∧ clean_addr 5000 = 5000 % 4096 :=
  ⟨by decide, (ram_addr_mask_mod 5000 (by decide)).1⟩

/-- Claim C3: for each of the 16 glyphs, the 5-byte slice of the font table
at offsets `5*g .. 5*g+5` equals that glyph's `Font::as_bytes`; the
concatenation of the 16 glyph byte sequences is exactly the 80-byte
`Font::get_table_as_bytes`; and after `Ram::new()` the table occupies
addresses `0x050..=0x09F`: for every `i < 80` the byte at address
`0x050 + i` equals `table[i]`. -/
theorem font_table_round_trip :
    (∀ g : Font, (Font.get_table_as_bytes.drop g.table_offset).take 5 = g.as_bytes) ∧
    (Font.allChars.map Font.as_bytes).flatten = Font.get_table_as_bytes ∧
    (∀ i : Fin 80, Ram.new.get (0x050 + i.val) = Font.get_table_as_bytes.getD i.val 0) := by
  refine ⟨by decide, by decide, fun i => ?_⟩
  have hi := i.isLt
  have haddr : addr_to_usize (0x050 + i.val) = 0x050 + i.val := by
    simp only [addr_to_usize, clean_addr_eq_mod]
    omega
  have hbase : addr_to_usize Font.PREFERRED_TABLE_STARTING_ADDRESS = 0x050 := by decide
  have hlen : Font.get_table_as_bytes.length = 80 := by decide
  simp only [Ram.get, Ram.new, hbase, haddr]
  exact writeBytes_get _ _ _ _ (by omega)

/-- Claim C10: after `Ram::new()`, every byte at an address outside the font
region `0x050..=0x09F` equals 0. -/
theorem ram_new_zero_outside_font (i : Nat) (h1 : i < 4096)
    (h2 : ¬ (0x050 ≤ i ∧ i < 0x0A0)) : Ram.new.get i = 0 := by
  have haddr : addr_to_usize i = i := by
    simp only [addr_to_usize, clean_addr_eq_mod]
    omega
  have hbase : addr_to_usize Font.PREFERRED_TABLE_STARTING_ADDRESS = 0x050 := by decide
  have hlen : Font.get_table_as_bytes.length = 80 := by decide
  simp only [Ram.get, Ram.new, hbase, haddr]
  rw [writeBytes_eq_of_outside]
  rw [hlen]
  omega

theorem ram_new_zero_outside_font_witness :
    (0 : Nat) < 4096 ∧ ¬ ((0x050 : Nat) ≤ 0 ∧ (0 : Nat) < 0x0A0) ∧ Ram.new.get 0 = 0 :=
  ⟨by decide, by decide, ram_new_zero_outside_font 0 (by decide) (by decide)⟩

/-- Claim C2 fails as stated: the Rust range `0x0FFF..0x1005` (start bound
included `0x0FFF`, end bound excluded `0x1005`) normalizes to `4095..5`
after masking, and slicing the 4096-byte array with `4095..5` panics
(start exceeds end), so `Ram::get_range` is not total. -/
theorem get_range_not_total :
    Ram.new.get_range ⟨AddrBound.included 0x0FFF, AddrBound.excluded 0x1005⟩ = none := by
  rfl

/-- Claim C2 (amended): for every address range, the normalized start is at
most `RAM_SIZE - 1` and the normalized end at most `RAM_SIZE` (so no access
past the 4096-byte array is possible), and whenever the normalized start
does not exceed the normalized end, `Ram::get_range` and
`Ram::get_range_mut` succeed. -/
theorem get_range_bounds (r : Ram) (ar : AddrRangeBounds) :
    (normalize_addr_range ar).1 ≤ RAM_SIZE - 1 ∧
    (normalize_addr_range ar).2 ≤ RAM_SIZE ∧
    ((normalize_addr_range ar).1 ≤ (normalize_addr_range ar).2 →
      (r.get_range ar).isSome ∧ (r.get_range_mut ar).isSome) := by
  obtain ⟨sb, eb⟩ := ar
  have hstart : (normalize_addr_range ⟨sb, eb⟩).1 ≤ RAM_SIZE - 1 := by
    rcases sb with a | a | _ <;>
      simp only [normalize_addr_range, RAM_SIZE, clean_addr_eq_mod] <;> omega
  have hstop : (normalize_addr_range ⟨sb, eb⟩).2 ≤ RAM_SIZE := by
    rcases eb with a | a | _ <;>
      simp only [normalize_addr_range, RAM_SIZE, clean_addr_eq_mod] <;> omega
  refine ⟨hstart, hstop, fun h => ⟨?_, ?_⟩⟩ <;>
    simp [Ram.get_range, Ram.get_range_mut, addr_range_to_usize_range, sliceMem, h,
      hstop]

theorem get_range_bounds_witness :
    (normalize_addr_range ⟨AddrBound.unbounded, AddrBound.unbounded⟩).1 ≤ RAM_SIZE - 1 ∧
    (Ram.new.get_range ⟨AddrBound.unbounded, AddrBound.unbounded⟩).isSome :=
  ⟨(get_range_bounds Ram.new ⟨AddrBound.unbounded, AddrBound.unbounded⟩).1,
   ((get_range_bounds Ram.new ⟨AddrBound.unbounded, AddrBound.unbounded⟩).2.2
      (by decide)).1⟩

/-! ### Displays (src/crates/display-chip8/src/lib.rs and
src/crates/display-blank/src/lib.rs)

Pixels are `image::Rgba<u8>` values; `Pixel::invert` inverts the three
colour channels and leaves alpha untouched. -/

/-- An `image::Rgba<u8>` pixel; each channel is a `u8` (a `Nat` that the
code keeps in `0..=255`). -/
structure Rgba where
  r : Nat
  g : Nat
  b : Nat
  a : Nat
  deriving DecidableEq, Repr

/-- `image::Pixel::invert` on `Rgba<u8>`: each colour channel becomes
`255 - c`; alpha is unchanged. -/
def Rgba.invert (p : Rgba) : Rgba := ⟨255 - p.r, 255 - p.g, 255 - p.b, p.a⟩

/-- The `u8` range invariant on a pixel's channels. -/
def Rgba.wf (p : Rgba) : Prop := p.r ≤ 255 ∧ p.g ≤ 255 ∧ p.b ≤ 255 ∧ p.a ≤ 255

instance : DecidablePred Rgba.wf := fun p => by
  unfold Rgba.wf
  infer_instance

/-- `const WIDTH: u32 = 64` (display-chip8). -/
def WIDTH : Nat := 64

/-- `const HEIGHT: u32 = 32` (display-chip8). -/
def HEIGHT : Nat := 32

/-- `Chip8Display`: `buf: RgbaImage` of size 64x32, as an index function. -/
@[ext]
structure Chip8Display where
  buf : Fin WIDTH → Fin HEIGHT → Rgba

/-- The `ImageBuffer::from_fn` closure in `Chip8Display::new`:
black/white checkerboard. -/
def checkerboardPixel (x y : Nat) : Rgba :=
  if (x % 2 = 0 ∧ y % 2 ≠ 0) ∨ (x % 2 ≠ 0 ∧ y % 2 = 0) then
    ⟨0, 0, 0, 255⟩
  else
    ⟨255, 255, 255, 255⟩

/-- `Chip8Display::new`: checkerboard plus the four orienting corner
pixels written afterwards. -/
def Chip8Display.new : Chip8Display :=
  ⟨fun x y =>
    if x.val = 0 ∧ y.val = 0 then ⟨255, 0, 0, 255⟩
    else if x.val = 63 ∧ y.val = 0 then ⟨0, 255, 0, 255⟩
    else if x.val = 0 ∧ y.val = 31 then ⟨0, 0, 255, 255⟩
    else if x.val = 63 ∧ y.val = 31 then ⟨255, 0, 255, 255⟩
    else checkerboardPixel x.val y.val⟩

/-- `Chip8Display::dimensions`: `self.buf.dimensions()`, i.e. (64, 32). -/
def Chip8Display.dimensions (_ : Chip8Display) : Nat × Nat := (WIDTH, HEIGHT)

/-- `Chip8Display::is_srgb`: `false`. -/
def Chip8Display.is_srgb (_ : Chip8Display) : Bool := false

/-- `Chip8Display::flip_pixel`: invert the pixel at
`(x % WIDTH, y % HEIGHT)`. -/
def Chip8Display.flip_pixel (d : Chip8Display) (x y : Nat) : Chip8Display :=
  ⟨fun x' y' =>
    if x'.val = x % WIDTH ∧ y'.val = y % HEIGHT then (d.buf x' y').invert
    else d.buf x' y'⟩

/-- All channels of all pixels are in the `u8` range (true of every
buffer the Rust code can construct, where channels have type `u8`). -/
def Chip8Display.wf (d : Chip8Display) : Prop := ∀ x y, (d.buf x y).wf

instance : DecidablePred Chip8Display.wf := fun d => by
  unfold Chip8Display.wf
  infer_instance

/-- `BlankDisplay`: `buf: RgbaImage` of size 1x1. -/
@[ext]
structure BlankDisplay where
  buf : Fin 1 → Fin 1 → Rgba

/-- `BlankDisplay::new`: `ImageBuffer::new(1, 1)` zero-initializes every
channel. -/
def BlankDisplay.new : BlankDisplay := ⟨fun _ _ => ⟨0, 0, 0, 0⟩⟩

/-- `BlankDisplay::dimensions`: `(1, 1)`. -/
def BlankDisplay.dimensions (_ : BlankDisplay) : Nat × Nat := (1, 1)

/-- `BlankDisplay::is_srgb`: `false`. -/
def BlankDisplay.is_srgb (_ : BlankDisplay) : Bool := false

/-- `BlankDisplay::flip_pixel`: a no-op. -/
def BlankDisplay.flip_pixel (d : BlankDisplay) (_x _y : Nat) : BlankDisplay := d

theorem Rgba.invert_invert (p : Rgba) (h : p.wf) : p.invert.invert = p := by
  obtain ⟨pr, pg, pb, pa⟩ := p
  obtain ⟨h1, h2, h3, h4⟩ := h
  simp only [Rgba.wf] at h1 h2 h3 h4
  simp [Rgba.invert]
  omega

/-! ### Claims C4 and C5 -/

/-- Claim C4: on both display variants, `flip_pixel (x, y)` produces the
same display state as `flip_pixel (x % W, y % H)` for the variant's
dimensions `(W, H)`; and two consecutive flips at the same coordinates
restore the original pixel buffer (for `Chip8Display`, under the `u8`
channel-range invariant that all Rust-constructed buffers satisfy). -/
theorem flip_pixel_wrap_involution :
    (∀ (d : Chip8Display) (x y : Nat),
      d.flip_pixel x y = d.flip_pixel (x % WIDTH) (y % HEIGHT)) ∧
    (∀ (d : Chip8Display) (x y : Nat), d.wf →
      (d.flip_pixel x y).flip_pixel x y = d) ∧
    (∀ (d : BlankDisplay) (x y : Nat),
      d.flip_pixel x y = d.flip_pixel (x % 1) (y % 1)) ∧
    (∀ (d : BlankDisplay) (x y : Nat),
      (d.flip_pixel x y).flip_pixel x y = d) := by
  refine ⟨fun d x y => ?_, fun d x y hwf => ?_, fun d x y => rfl, fun d x y => rfl⟩
  · have hx : x % WIDTH % WIDTH = x % WIDTH := Nat.mod_mod_of_dvd x dvd_rfl
    have hy : y % HEIGHT % HEIGHT = y % HEIGHT := Nat.mod_mod_of_dvd y dvd_rfl
    dsimp only [Chip8Display.flip_pixel]
    simp only [hx, hy]
  · ext x' y'
    dsimp only [Chip8Display.flip_pixel]
    by_cases hc : x'.val = x % WIDTH ∧ y'.val = y % HEIGHT
    · rw [if_pos hc, if_pos hc]
      exact Rgba.invert_invert _ (hwf x' y')
    · rw [if_neg hc, if_neg hc]

theorem flip_pixel_wrap_involution_witness :
    Chip8Display.wf Chip8Display.new ∧
    (Chip8Display.new.flip_pixel 1000 2000).flip_pixel 1000 2000 = Chip8Display.new :=
  ⟨by decide, flip_pixel_wrap_involution.2.1 Chip8Display.new 1000 2000 (by decide)⟩

/-- Claim C5 counterexample: `BlankDisplay::flip_pixel` is a no-op. At the
concrete input `(0, 0)` on a fresh blank display no pixel is mutated at
all — the whole display, and in particular the single pixel at
`(0 % 1, 0 % 1)`, is unchanged — so `flip_pixel` does not mutate exactly
one pixel on every display variant. -/
theorem blank_flip_pixel_mutates_nothing :
    BlankDisplay.new.flip_pixel 0 0 = BlankDisplay.new ∧
    (BlankDisplay.new.flip_pixel 0 0).buf 0 0 = BlankDisplay.new.buf 0 0 :=
  ⟨rfl, rfl⟩

/-- Claim C5 (amended): `flip_pixel (x, y)` mutates at most the pixel at
`(x % W, y % H)` — every other pixel and the display's dimensions are
unchanged.  `Chip8Display` always changes that one pixel;
`BlankDisplay::flip_pixel` is a no-op and changes none. -/
theorem flip_pixel_frame_effect :
    (∀ (d : Chip8Display) (x y : Nat) (x' : Fin WIDTH) (y' : Fin HEIGHT),
        ¬(x'.val = x % WIDTH ∧ y'.val = y % HEIGHT) →
        (d.flip_pixel x y).buf x' y' = d.buf x' y') ∧
    (∀ (d : Chip8Display) (x y : Nat),
        (d.flip_pixel x y).dimensions = d.dimensions) ∧
    (∀ (d : Chip8Display) (x y : Nat) (x' : Fin WIDTH) (y' : Fin HEIGHT),
        x'.val = x % WIDTH → y'.val = y % HEIGHT →
        (d.flip_pixel x y).buf x' y' ≠ d.buf x' y') ∧
    (∀ (d : BlankDisplay) (x y : Nat),
        d.flip_pixel x y = d ∧ (d.flip_pixel x y).dimensions = d.dimensions) := by
  refine ⟨fun d x y x' y' hne => ?_, fun d x y => rfl,
    fun d x y x' y' hx hy => ?_, fun d x y => ⟨rfl, rfl⟩⟩
  · dsimp only [Chip8Display.flip_pixel]
    rw [if_neg hne]
  · dsimp only [Chip8Display.flip_pixel]
    rw [if_pos ⟨hx, hy⟩]
    intro heq
    rcases hbuf : d.buf x' y' with ⟨pr, pg, pb, pa⟩
    rw [hbuf] at heq
    simp only [Rgba.invert, Rgba.mk.injEq] at heq
    omega

theorem flip_pixel_frame_effect_witness :
    (¬((1 : Nat) = 0 % WIDTH ∧ (0 : Nat) = 0 % HEIGHT) ∧
      (Chip8Display.new.flip_pixel 0 0).buf ⟨1, by decide⟩ ⟨0, by decide⟩ =
        Chip8Display.new.buf ⟨1, by decide⟩ ⟨0, by decide⟩) ∧
    (Chip8Display.new.flip_pixel 0 0).buf ⟨0, by decide⟩ ⟨0, by decide⟩ ≠
      Chip8Display.new.buf ⟨0, by decide⟩ ⟨0, by decide⟩ :=
  ⟨⟨by decide, flip_pixel_frame_effect.1 Chip8Display.new 0 0 ⟨1, by decide⟩
      ⟨0, by decide⟩ (by decide)⟩,
   flip_pixel_frame_effect.2.2.1 Chip8Display.new 0 0 ⟨0, by decide⟩ ⟨0, by decide⟩
      (by decide) (by decide)⟩

/-! ### GPU display texture (src/crates/wgpu-display-texture/src/lib.rs)

The GPU device and queue are abstracted away: a `WgpuDisplayTexture`
keeps the creation-time `wgpu::Extent3d`, the chosen texture format, and
the bytes last uploaded to the device by `queue.write_texture`.  A
`&dyn Display` argument is embedded as the snapshot of its three
observable methods. -/

/-- The view of a `&dyn Display`: `dimensions()`, `as_rgba8_image()`
(raw RGBA8 bytes) and `is_srgb()`. -/
structure DisplaySnapshot where
  dims : Nat × Nat
  rgba : List Nat
  srgb : Bool

/-- `Chip8Display::as_rgba8_image` as raw row-major RGBA8 bytes. -/
def Chip8Display.as_rgba8_image (d : Chip8Display) : List Nat :=
  ((List.finRange HEIGHT).map (fun y =>
    ((List.finRange WIDTH).map (fun x =>
      [(d.buf x y).r, (d.buf x y).g, (d.buf x y).b, (d.buf x y).a])).flatten)).flatten

/-- `BlankDisplay::as_rgba8_image` as raw RGBA8 bytes (one pixel). -/
def BlankDisplay.as_rgba8_image (d : BlankDisplay) : List Nat :=
  [(d.buf 0 0).r, (d.buf 0 0).g, (d.buf 0 0).b, (d.buf 0 0).a]

/-- The `dyn Display` snapshot of a `Chip8Display`. -/
def Chip8Display.snapshot (d : Chip8Display) : DisplaySnapshot :=
  ⟨d.dimensions, d.as_rgba8_image, d.is_srgb⟩

/-- The `dyn Display` snapshot of a `BlankDisplay`. -/
def BlankDisplay.snapshot (d : BlankDisplay) : DisplaySnapshot :=
  ⟨d.dimensions, d.as_rgba8_image, d.is_srgb⟩

/-- `wgpu::Extent3d`. -/
structure Extent3d where
  width : Nat
  height : Nat
  depth_or_array_layers : Nat
  deriving DecidableEq, Repr

/-- The two texture formats the code selects between. -/
inductive TextureFormat where
  | Rgba8Unorm
  | Rgba8UnormSrgb
  deriving DecidableEq, Repr

/-- `WgpuDisplayTexture`: the creation-time size and format, plus the
device-side bytes last uploaded with `queue.write_texture`. -/
structure WgpuDisplayTexture where
  size : Extent3d
  format : TextureFormat
  textureData : List Nat
  deriving DecidableEq, Repr

/-- `WgpuDisplayTextureUpdateError::DimensionsChanged { old, new }`. -/
inductive WgpuDisplayTextureUpdateError where
  | DimensionsChanged (old : Nat × Nat) (updated : Nat × Nat)
  deriving DecidableEq, Repr

/-- `WgpuDisplayTexture::from_chip8_display`: sizes and formats the
texture from the display, then uploads its buffer. -/
def WgpuDisplayTexture.from_chip8_display (display : DisplaySnapshot) : WgpuDisplayTexture :=
  { size := ⟨display.dims.1, display.dims.2, 1⟩,
    format := if display.srgb then .Rgba8UnormSrgb else .Rgba8Unorm,
    textureData := display.rgba }

/-- `WgpuDisplayTexture::update`: if the new display's dimensions differ
from the recorded size, return `DimensionsChanged { old, new }` before
any `write_texture` call (the error branch performs no upload and the
texture is left unchanged); otherwise upload the new buffer. -/
def WgpuDisplayTexture.update (t : WgpuDisplayTexture) (new_display : DisplaySnapshot) :
    Except WgpuDisplayTextureUpdateError WgpuDisplayTexture :=
  if new_display.dims.1 ≠ t.size.width ∨ new_display.dims.2 ≠ t.size.height then
    .error (.DimensionsChanged (t.size.width, t.size.height)
      (new_display.dims.1, new_display.dims.2))
  else
    .ok { t with textureData := new_display.rgba }

/-- Claim C6: `update` succeeds (uploading the new buffer) exactly when
the new display's dimensions equal the creation-time size; otherwise it
returns `DimensionsChanged { old, new }` with `old` the creation-time
dimensions and `new` the display's dimensions, and performs no upload.
In particular a texture created from the 1x1 blank display, updated with
the 64x32 CHIP8 display, yields
`DimensionsChanged { old := (1, 1), new := (64, 32) }`. -/
theorem update_dimension_gate :
    (∀ (t : WgpuDisplayTexture) (d : DisplaySnapshot),
        d.dims = (t.size.width, t.size.height) →
        t.update d = .ok { t with textureData := d.rgba }) ∧
    (∀ (t : WgpuDisplayTexture) (d : DisplaySnapshot),
        d.dims ≠ (t.size.width, t.size.height) →
        t.update d = .error (.DimensionsChanged (t.size.width, t.size.height) d.dims)) ∧
    ((WgpuDisplayTexture.from_chip8_display BlankDisplay.new.snapshot).update
        Chip8Display.new.snapshot =
      .error (.DimensionsChanged (1, 1) (64, 32))) := by
  refine ⟨fun t d hd => ?_, fun t d hd => ?_, ?_⟩
  · simp [WgpuDisplayTexture.update, hd]
  · have hcond : d.dims.1 ≠ t.size.width ∨ d.dims.2 ≠ t.size.height := by
      by_contra hcon
      push_neg at hcon
      exact hd (Prod.ext_iff.mpr ⟨hcon.1, hcon.2⟩)
    unfold WgpuDisplayTexture.update
    rw [if_pos hcond, Prod.mk.eta]
  · rfl

theorem update_dimension_gate_witness :
    ((WgpuDisplayTexture.from_chip8_display BlankDisplay.new.snapshot).update
        BlankDisplay.new.snapshot =
      .ok { WgpuDisplayTexture.from_chip8_display BlankDisplay.new.snapshot with
            textureData := BlankDisplay.new.snapshot.rgba }) ∧
    ((WgpuDisplayTexture.from_chip8_display Chip8Display.new.snapshot).update
        BlankDisplay.new.snapshot =
      .error (.DimensionsChanged (64, 32) BlankDisplay.new.snapshot.dims)) :=
  ⟨update_dimension_gate.1 _ _ (by decide),
   update_dimension_gate.2.1 _ _ (by decide)⟩

/-! ### Emulator (src/src/emulator.rs)

The `Emulator` owns two atomic booleans (`should_run`,
`frame_ready_to_render`), the shared display slot
(`Arc<Mutex<Option<Box<dyn Display>>>>`), the RAM, and one side of the
bounded display-reference channel.  Atomics and the mutex are embedded
as plain state in a sequential model. -/

/-- A `Box<dyn Display>`: one of the two display variants. -/
inductive DisplayObj where
  | chip8 (d : Chip8Display)
  | blank (d : BlankDisplay)

/-- `channel::bounded(1)` in `Emulator::new`: the display hand-off
channel's capacity. -/
def displayChannelCapacity : Nat := 1

/-- The `Emulator` state: the run flag, the display slot, the contents
of the bounded display-reference channel (each element one queued
`DisplayRef`), the frame-ready flag, and the RAM. -/
structure Emulator where
  should_run : Bool
  display : Option DisplayObj
  display_ref_queue : List Unit
  frame_ready_to_render : Bool
  ram : Ram

/-- `Emulator::new`: run flag clear, empty display slot, empty channel,
frame-ready flag set, fresh RAM. -/
def Emulator.new : Emulator :=
  { should_run := false, display := none, display_ref_queue := [],
    frame_ready_to_render := true, ram := Ram.new }

/-- `Emulator::is_frame_ready_to_render`: load the flag. -/
def Emulator.is_frame_ready_to_render (e : Emulator) : Bool :=
  e.frame_ready_to_render

/-- `Emulator::notify_frame_rendered`: store `false` into the flag. -/
def Emulator.notify_frame_rendered (e : Emulator) : Emulator :=
  { e with frame_ready_to_render := false }

/-- `Emulator::set_frame_ready_to_render`: store `true` into the flag. -/
def Emulator.set_frame_ready_to_render (e : Emulator) : Emulator :=
  { e with frame_ready_to_render := true }

/-- The observable outcome of `Emulator::start`: the emulator state as
seen when the call returns, whether a background thread was spawned, and
the error, if any.  (The spawned thread's own later effects, starting
with `main_run_loop` storing `true` into `should_run`, happen after the
call returns.) -/
structure StartOutcome where
  emu : Emulator
  thread_spawned : Bool
  err : Option String

/-- `Emulator::start`: if `should_run` reads `true`, return the
"already running" error without spawning; otherwise spawn the
`main_run_loop` thread and return `Ok(())`.  Thread spawning itself is
assumed to succeed (the OS-level spawn failure path is outside the
model). -/
def Emulator.start (e : Emulator) : StartOutcome :=
  if e.should_run then
    { emu := e, thread_spawned := false,
      err := some "The emulator is already running!" }
  else
    { emu := e, thread_spawned := true, err := none }

/-- `Emulator::attach_display`, sequential view: store the display into
the slot, send one reference into the bounded channel — a send on a full
channel blocks the producer, modelled as `none` (the call cannot
complete until a consumer drains the slot) — then raise the frame-ready
flag. -/
def Emulator.attach_display (e : Emulator) (display : DisplayObj) : Option Emulator :=
  if e.display_ref_queue.length < displayChannelCapacity then
    some { e with display := some display,
                  display_ref_queue := e.display_ref_queue ++ [()],
                  frame_ready_to_render := true }
  else
    none

/-! ### Claims C7 and C8 -/

/-- Claim C7: the frame-ready flag is `true` immediately after
`Emulator::new()`; after any `notify_frame_rendered` it reads `false`;
and after any subsequent `set_frame_ready_to_render` it reads `true`
again, regardless of the prior state. -/
theorem frame_ready_flag_protocol :
    Emulator.new.is_frame_ready_to_render = true ∧
    (∀ e : Emulator, e.notify_frame_rendered.is_frame_ready_to_render = false) ∧
    (∀ e : Emulator,
      e.notify_frame_rendered.set_frame_ready_to_render.is_frame_ready_to_render
        = true) ∧
    (∀ e : Emulator, e.set_frame_ready_to_render.is_frame_ready_to_render = true) :=
  ⟨rfl, fun _ => rfl, fun _ => rfl, fun _ => rfl⟩

/-- Claim C8: `Emulator::start` returns an error exactly when the run
flag reads `true` at the call; in the error case no background thread is
spawned and the emulator state is unchanged; a call on a non-running
emulator succeeds (and spawns the thread). -/
theorem start_rejects_already_running (e : Emulator) :
    ((e.start).err.isSome ↔ e.should_run = true) ∧
    (e.should_run = true →
      e.start = { emu := e, thread_spawned := false,
                  err := some "The emulator is already running!" }) ∧
    (e.should_run = false →
      (e.start).err = none ∧ (e.start).thread_spawned = true ∧ (e.start).emu = e) := by
  cases h : e.should_run <;> simp [Emulator.start, h]

theorem start_rejects_already_running_witness :
    (Emulator.new.start).err = none ∧
    (({ Emulator.new with should_run := true }).start).err.isSome :=
  ⟨((start_rejects_already_running Emulator.new).2.2 rfl).1,
   ((start_rejects_already_running { Emulator.new with should_run := true }).1).mpr rfl⟩

/-! ### The bounded display hand-off channel (claim C9)

Modelled from the spec: the send/receive semantics of the
`crossbeam::channel::bounded(1)` channel created in `Emulator::new` —
the crossbeam library itself is an external dependency, only its
creation (`channel::bounded(1)`) and use sites are in the source.  A
send is only enabled while the queue holds fewer than
`displayChannelCapacity` elements (a send on a full channel blocks the
producer until a receive drains it), and a receive takes the oldest
element (FIFO). -/

/-- One channel interaction. -/
inductive ChanEvent (α : Type) where
  | send (x : α)
  | recv (x : α)

/-- One enabled step of the bounded channel: `send` appends only while
the queue is below capacity; `recv` removes the head. -/
inductive ChanStep (α : Type) : List α → ChanEvent α → List α → Prop where
  | send (q : List α) (x : α) (h : q.length < displayChannelCapacity) :
      ChanStep α q (.send x) (q ++ [x])
  | recv (q : List α) (x : α) : ChanStep α (x :: q) (.recv x) q

/-- Queue states reachable from the empty channel along a trace. -/
inductive ChanReach (α : Type) : List (ChanEvent α) → List α → Prop where
  | nil : ChanReach α [] []
  | step {tr : List (ChanEvent α)} {q : List α} {e : ChanEvent α} {q' : List α} :
      ChanReach α tr q → ChanStep α q e q' → ChanReach α (tr ++ [e]) q'

/-- The values sent along a trace, in order. -/
def sentOf {α : Type} (tr : List (ChanEvent α)) : List α :=
  tr.filterMap fun ev => match ev with | .send x => some x | .recv _ => none

/-- The values received along a trace, in order. -/
def recvOf {α : Type} (tr : List (ChanEvent α)) : List α :=
  tr.filterMap fun ev => match ev with | .recv x => some x | .send _ => none

theorem chanReach_invariant {α : Type} {tr : List (ChanEvent α)} {q : List α}
    (h : ChanReach α tr q) :
    q.length ≤ displayChannelCapacity ∧ sentOf tr = recvOf tr ++ q := by
  induction h with
  | nil => simp [sentOf, recvOf]
  | step hr hs ih =>
      rcases hs with ⟨q, x, hlt⟩ | ⟨q, x⟩
      · refine ⟨by simp only [List.length_append, List.length_cons,
          List.length_nil]; omega, ?_⟩
        simp [sentOf, recvOf, List.filterMap_append] at ih ⊢
        rw [ih.2, List.append_assoc]
      · refine ⟨by simp only [List.length_cons] at ih; omega, ?_⟩
        simp [sentOf, recvOf, List.filterMap_append] at ih ⊢
        rw [ih.2]

/-- Claim C9: the display hand-off channel has capacity exactly 1; along
every trace from the empty channel at most one reference is ever
pending; a send is only enabled while the slot is empty (a send onto a
full channel blocks the producer until the consumer drains it); the sent
references are exactly the received ones, in order, followed by the
still-pending ones (nothing is dropped or reordered); and
`attach_display` blocks when a reference is pending, while a completed
`attach_display` leaves exactly its one new reference appended, never
exceeding one pending. -/
theorem display_handoff_capacity_one :
    displayChannelCapacity = 1 ∧
    (∀ (α : Type) (tr : List (ChanEvent α)) (q : List α), ChanReach α tr q →
      q.length ≤ 1 ∧ sentOf tr = recvOf tr ++ q) ∧
    (∀ (α : Type) (q q' : List α) (x : α), ChanStep α q (.send x) q' → q = []) ∧
    (∀ (e : Emulator) (d : DisplayObj), 1 ≤ e.display_ref_queue.length →
      e.attach_display d = none) ∧
    (∀ (e : Emulator) (d : DisplayObj) (e' : Emulator),
      e.attach_display d = some e' →
      e'.display_ref_queue = e.display_ref_queue ++ [()] ∧
      e'.display_ref_queue.length ≤ 1) := by
  refine ⟨rfl, fun α tr q h => chanReach_invariant h, fun α q q' x h => ?_,
    fun e d h => ?_, fun e d e' h => ?_⟩
  · rcases h with ⟨q, x, hlt⟩
    simp only [displayChannelCapacity] at hlt
    exact List.length_eq_zero.mp (by omega)
  · simp only [Emulator.attach_display, displayChannelCapacity]
    rw [if_neg]
    omega
  · unfold Emulator.attach_display at h
    by_cases hlt : e.display_ref_queue.length < displayChannelCapacity
    · rw [if_pos hlt] at h
      cases h
      refine ⟨rfl, ?_⟩
      simp only [List.length_append, List.length_cons, List.length_nil,
        displayChannelCapacity] at hlt ⊢
      omega
    · rw [if_neg hlt] at h
      cases h

theorem display_handoff_capacity_one_witness :
    (([()] : List Unit).length ≤ 1 ∧
      sentOf [ChanEvent.send ()] = recvOf [ChanEvent.send ()] ++ [()]) ∧
    ({ Emulator.new with display_ref_queue := [()] }).attach_display
        (DisplayObj.blank BlankDisplay.new) = none :=
  ⟨display_handoff_capacity_one.2.1 Unit [ChanEvent.send ()] [()]
      (ChanReach.step ChanReach.nil (ChanStep.send [] () (by decide))),
   display_handoff_capacity_one.2.2.2.1 _ _ (by decide)⟩

end Chip8Emu
